import Mathlib

/-!
Verification development for the resume extraction post-processing pipeline
(source grounding, overlap deduplication, confidence scoring, entity
resolution, relation inference, knowledge-graph formatting).

Extraction items are Python dicts in the source; here they are modelled as a
record whose fields are the keys the pipeline reads or writes, each `Option`-
valued to distinguish a missing key from a present one.  Strings are `List
Char`, numbers are `Rat` (Python floats are modelled exactly as rationals)
and `Int`.  Each definition carries a doc comment naming the Python function
it embeds.
-/

/-- Truthiness of an optional string field, as Python evaluates
`ext.get(key)` in a boolean context: missing and empty are falsy. -/
def truthyStr : Option (List Char) → Bool
  | none => false
  | some s => !s.isEmpty

/-- The tag `"entity"`. -/
def strEntity : List Char := "entity".toList
/-- The tag `"relation"`. -/
def strRelation : List Char := "relation".toList
/-- The tag `"rule"`. -/
def strRule : List Char := "rule".toList
/-- The tag `"constraint"`. -/
def strConstraint : List Char := "constraint".toList
/-- The tag `"event"`. -/
def strEvent : List Char := "event".toList
/-- The tag `"state"`. -/
def strState : List Char := "state".toList
/-- The match tag `"exact"`. -/
def strExact : List Char := "exact".toList
/-- The match tag `"normalized"`. -/
def strNormalized : List Char := "normalized".toList
/-- The match tag `"fuzzy"`. -/
def strFuzzy : List Char := "fuzzy".toList
/-- The match tag `"none"`. -/
def strNoneTag : List Char := "none".toList
/-- The default relation kind `"relates_to"` of `KGInjector._convert_relation`. -/
def strRelatesTo : List Char := "relates_to".toList
/-- The tag `"candidate"`. -/
def strCandidate : List Char := "candidate".toList
/-- The scope label `"resume"` of inferred relations. -/
def strResume : List Char := "resume".toList

/-- `source_location` dictionary produced by `SourceGrounder._make_loc` (or
supplied by the caller).  `char_interval` is `Option` of a pair of optional
endpoints because callers may supply `(None, e)`-style tuples, which
`OverlapDeduplicator.process` explicitly screens out. -/
structure SourceLoc where
  char_start : Option Int
  char_end : Option Int
  char_interval : Option (Option Int × Option Int)
  line : Option Int
  match_type : Option (List Char)
  confidence : Option Rat
deriving DecidableEq

/-- An extraction item (or relation record): a Python dict restricted to the
keys the pipeline stages read or write.  A `none` field is a missing key. -/
structure Item where
  type : Option (List Char)
  text : Option (List Char)
  id : Option (List Char)
  summary_cn : Option (List Char)
  trigger_context : Option (List Char)
  consequence : Option (List Char)
  reason : Option (List Char)
  related_entities : Option (List Char)
  attributes : List (List Char × List Char)
  source_location : Option SourceLoc
  confidence : Option Rat
  source_file : Option (List Char)
  «from» : Option (List Char)
  «to» : Option (List Char)
  relation_type : Option (List Char)
  target_name : Option (List Char)
  scope : Option (List Char)
  inferred : Option Bool
deriving DecidableEq

/-- The item with every key missing. -/
def blankItem : Item :=
  ⟨none, none, none, none, none, none, none, none, [], none, none, none,
   none, none, none, none, none, none⟩

/-- Kernel-reducible `min` on `Rat` (Python `min(a, b)`). -/
def rmin (a b : Rat) : Rat := if b < a then b else a

/-- Kernel-reducible `max` on `Rat` (Python `max(a, b)`). -/
def rmax (a b : Rat) : Rat := if a < b then b else a

/-- Kernel-reducible `min` on `Int`. -/
def imin (a b : Int) : Int := if b < a then b else a

/-- Kernel-reducible `max` on `Int`. -/
def imax (a b : Int) : Int := if a < b then b else a

/-- Kernel-reducible `min` on `Nat`. -/
def nmin (a b : Nat) : Nat := if b < a then b else a

/-- Kernel-reducible `max` on `Nat`. -/
def nmax (a b : Nat) : Nat := if a < b then b else a

/-- Kernel-reducible floor of a rational, `q.num / q.den`. -/
def rfloor (q : Rat) : Int := q.num / (q.den : Int)

/-- Python `str.find` on character lists: index of the first occurrence of
`needle` as a substring of `hay`, `none` when absent (Python returns `-1`). -/
def strFind (needle : List Char) : List Char → Option Nat
  | [] => if needle.isEmpty then some 0 else none
  | c :: t =>
    if needle.isPrefixOf (c :: t) then some 0
    else (strFind needle t).map (· + 1)

/-- Python `needle in hay` substring test on character lists. -/
def isSubstr (needle : List Char) : List Char → Bool
  | [] => needle.isEmpty
  | c :: t => needle.isPrefixOf (c :: t) || isSubstr needle t

/-- Length of the longest common prefix of two character lists. -/
def lcp : List Char → List Char → Nat
  | a :: as, b :: bs => if a = b then lcp as bs + 1 else 0
  | _, _ => 0

/-- `difflib.SequenceMatcher.find_longest_match(alo, ahi, blo, bhi)` for
short, junk-free inputs (the autojunk heuristic only fires on sequences of
200+ characters and is not modelled): the longest block `(i, j, k)` with
`a[i:i+k] == b[j:j+k]` inside the window, ties broken by smallest `i`, then
smallest `j`. -/
def flm (a b : List Char) (alo ahi blo bhi : Nat) : Nat × Nat × Nat :=
  (List.range (ahi - alo)).foldl
    (fun best di =>
      let i := alo + di
      (List.range (bhi - blo)).foldl
        (fun best dj =>
          let j := blo + dj
          let k := nmin (lcp (a.drop i) (b.drop j)) (nmin (ahi - i) (bhi - j))
          if best.2.2 < k then (i, j, k) else best)
        best)
    (alo, blo, 0)

/-- Total size of the matching blocks of `difflib.SequenceMatcher
.get_matching_blocks` (recursive longest-match decomposition).  The `fuel`
argument only serves structural termination; `smRatio` supplies more fuel
than the recursion depth can reach. -/
def mtotal (a b : List Char) : Nat → Nat → Nat → Nat → Nat → Nat
  | 0, _, _, _, _ => 0
  | fuel + 1, alo, ahi, blo, bhi =>
    let r := flm a b alo ahi blo bhi
    if r.2.2 = 0 then 0
    else
      mtotal a b fuel alo r.1 blo r.2.1 + r.2.2 +
        mtotal a b fuel (r.1 + r.2.2) ahi (r.2.1 + r.2.2) bhi

/-- `difflib.SequenceMatcher(None, a, b).ratio()`:
`2 * total_matched / (len(a) + len(b))`. -/
def smRatio (a b : List Char) : Rat :=
  ((2 * mtotal a b (a.length + b.length + 1) 0 a.length 0 b.length : Nat) : Rat) /
    ((a.length + b.length : Nat) : Rat)

/-- Round half to even, Python's `round` on a value modelled exactly. -/
def rhe (q : Rat) : Int :=
  let f := rfloor q
  let r := q - (f : Rat)
  if r < 1 / 2 then f
  else if 1 / 2 < r then f + 1
  else if f % 2 = 0 then f else f + 1

/-- Python `round(x, 3)`. -/
def round3 (q : Rat) : Rat := ((rhe (q * 1000) : Int) : Rat) / 1000

/-- Python `' '.join(text.split())`: collapse whitespace runs, used by
`KGInjector._make_name`.  `acc` is the reversed current word. -/
def wsWords (acc : List Char) : List Char → List (List Char)
  | [] => if acc.isEmpty then [] else [acc.reverse]
  | c :: t =>
    if c.isWhitespace then
      if acc.isEmpty then wsWords [] t else acc.reverse :: wsWords [] t
    else wsWords (c :: acc) t

/-- Whitespace collapse: `' '.join(text.split())`. -/
def wsCollapse (t : List Char) : List Char :=
  List.intercalate [' '] (wsWords [] t)

/-- Assoc-list lookup, the read side of a Python dict keyed by strings. -/
def alistGet (k : List Char) : List (List Char × List Char) → Option (List Char)
  | [] => none
  | (k0, v0) :: rest => if k0 = k then some v0 else alistGet k rest

/-- Assoc-list insertion with replacement, the write side of a Python dict:
a later assignment to an existing key overwrites it. -/
def alistInsert (k v : List Char) : List (List Char × List Char) → List (List Char × List Char)
  | [] => [(k, v)]
  | (k0, v0) :: rest =>
    if k0 = k then (k, v) :: rest else (k0, v0) :: alistInsert k v rest

/-! ## Source Grounder (`src/scripts/source_grounding.py`) -/

/-- `SourceGrounder._normalize`: strip all whitespace (`re.sub(r'\s+', '')`). -/
def normalizeWs (t : List Char) : List Char := t.filter (fun c => !c.isWhitespace)

/-- `SourceGrounder._build_offset_map`: real offsets of the non-whitespace
characters of the source, in order (precomputed once per grounder in the
source; here a function of the source text). -/
def normToReal (src : List Char) : List Nat :=
  (src.enum.filter (fun p => !p.2.isWhitespace)).map (·.1)

/-- `SourceGrounder._normalized_to_real_offset`: translate a normalized
offset back to a real offset, clamping past-the-end offsets to `len(source)`
(negative offsets cannot arise with `Nat`). -/
def n2r (src : List Char) (off : Nat) : Nat :=
  (normToReal src).getD off src.length

/-- `SourceGrounder._make_loc`: position dictionary with a 1-based line
number computed as `source[:start].count('\n') + 1`. -/
def mkLoc (src : List Char) (s e : Nat) (mt : List Char) (conf : Rat) : SourceLoc :=
  { char_start := some (s : Int)
    char_end := some (e : Int)
    char_interval := some (some (s : Int), some (e : Int))
    line := some (((src.take s).count '\n' : Nat) + 1 : Int)
    match_type := some mt
    confidence := some conf }

/-- The "no match" location of `SourceGrounder._align` (note: the Python dict
has no `char_interval` key in this case). -/
def noMatchLoc : SourceLoc :=
  { char_start := none, char_end := none, char_interval := none,
    line := none, match_type := some strNoneTag, confidence := some 0.1 }

/-- `SourceGrounder._align`: exact substring match, then whitespace-
normalized match translated back through the offset map, then fuzzy longest
common block (accepted at >= 30% of the query), else no match. -/
def sgAlign (src q : List Char) : SourceLoc :=
  match strFind q src with
  | some pos => mkLoc src pos (pos + q.length) strExact 1.0
  | none =>
    let nq := normalizeWs q
    match strFind nq (normalizeWs src) with
    | some npos =>
      mkLoc src (n2r src npos) (n2r src (npos + nq.length)) strNormalized 0.85
    | none =>
      let m := flm q src 0 q.length 0 src.length
      if 0 < m.2.2 ∧ (3 : Rat) / 10 ≤ ((m.2.2 : Nat) : Rat) / ((q.length : Nat) : Rat) then
        mkLoc src m.2.1 (m.2.1 + m.2.2) strFuzzy
          (((m.2.2 : Nat) : Rat) / ((q.length : Nat) : Rat) * 0.8)
      else noMatchLoc

/-- The per-item body of `SourceGrounder.process`: an item whose `text` is
missing or empty is appended unchanged; otherwise a copy with
`source_location` set from `_align` is appended. -/
def sgGroundOne (src : List Char) (ext : Item) : Item :=
  let t := ext.text.getD []
  if t.isEmpty then ext
  else { ext with source_location := some (sgAlign src t) }

/-- `SourceGrounder.process`: ground every item of the batch in order. -/
def sgProcess (src : List Char) (exts : List Item) : List Item :=
  exts.map (sgGroundOne src)

/-! ## Overlap Deduplicator (`src/scripts/overlap_dedup.py`) -/

/-- The valid `char_interval` of an item, when `source_location` is present,
carries a `char_interval`, and both endpoints are non-`None` — exactly the
screen at the top of `OverlapDeduplicator.process`. -/
def intervalOf (e : Item) : Option (Int × Int) :=
  match e.source_location with
  | none => none
  | some loc =>
    match loc.char_interval with
    | some (some s, some en) => some (s, en)
    | _ => none

/-- `OverlapDeduplicator._overlap_ratio` on the two `char_interval`s:
`overlap_length / min(len_a, len_b)`, `0` when the intervals do not overlap
or the shorter interval has length `0`. -/
def intervalOverlap (p q : Int × Int) : Rat :=
  let os := imax p.1 q.1
  let oe := imin p.2 q.2
  if oe ≤ os then 0
  else
    let ml := imin (p.2 - p.1) (q.2 - q.1)
    if ml = 0 then 0 else ((oe - os : Int) : Rat) / ((ml : Int) : Rat)

/-- `OverlapDeduplicator._overlap_ratio` on items (only ever applied to items
that passed the `char_interval` validity screen). -/
def itemOverlap (a b : Item) : Rat :=
  intervalOverlap ((intervalOf a).getD (0, 0)) ((intervalOf b).getD (0, 0))

/-- The truthy-attribute count of `OverlapDeduplicator._is_better`: number of
keys with truthy values, excluding `text`, `source_location`, `type` and
`confidence`. -/
def attrCount (e : Item) : Nat :=
  (if truthyStr e.id then 1 else 0) +
  (if truthyStr e.summary_cn then 1 else 0) +
  (if truthyStr e.trigger_context then 1 else 0) +
  (if truthyStr e.consequence then 1 else 0) +
  (if truthyStr e.reason then 1 else 0) +
  (if truthyStr e.related_entities then 1 else 0) +
  (if e.attributes.isEmpty then 0 else 1) +
  (if truthyStr e.source_file then 1 else 0) +
  (if truthyStr e.«from» then 1 else 0) +
  (if truthyStr e.«to» then 1 else 0) +
  (if truthyStr e.relation_type then 1 else 0) +
  (if truthyStr e.target_name then 1 else 0) +
  (if truthyStr e.scope then 1 else 0) +
  (if e.inferred = some true then 1 else 0)

/-- `OverlapDeduplicator._is_better`: more truthy attributes, then longer
`text`, then strictly higher `confidence` (default `0`). -/
def isBetter (a b : Item) : Bool :=
  if attrCount a ≠ attrCount b then attrCount b < attrCount a
  else if (a.text.getD []).length ≠ (b.text.getD []).length then
    (b.text.getD []).length < (a.text.getD []).length
  else a.confidence.getD 0 > b.confidence.getD 0

/-- Stable insertion of an item into a list sorted ascending by `key`; an
item with an equal key goes after the existing ones. -/
def insSorted (key : Item → Int) (x : Item) : List Item → List Item
  | [] => [x]
  | y :: ys => if key y ≤ key x then y :: insSorted key x ys else x :: y :: ys

/-- Stable ascending sort by `key`, as Python's stable `sorted`. -/
def sortByKey (key : Item → Int) (l : List Item) : List Item :=
  l.foldl (fun acc x => insSorted key x acc) []

/-- The sort key of `OverlapDeduplicator.process`:
`x['source_location']['char_interval'][0]` (only used on valid items). -/
def dedupKey (e : Item) : Int := ((intervalOf e).getD (0, 0)).1

/-- The inner `for kept_item in kept` loop of `OverlapDeduplicator.process`,
with Python's list-iterator semantics made explicit: the iterator walks
positions `i` of the *current* list, and `kept.remove(kept_item)` shifts the
remaining elements one position left, so the element after a removed one is
skipped.  Returns the updated kept list and whether the candidate is
appended.  `fuel` only serves structural termination; `dedupScan` supplies
`kept.length + 1`, which the index argument shows is always sufficient. -/
def dedupScanF (ta : Bool) (th : Rat) (item : Item) :
    Nat → List Item → Nat → List Item × Bool
  | 0, kept, _ => (kept, true)
  | fuel + 1, kept, i =>
    if h : i < kept.length then
      let k := kept.get ⟨i, h⟩
      if ta && !(item.type == k.type) then dedupScanF ta th item fuel kept (i + 1)
      else if th < itemOverlap item k then
        if isBetter item k then dedupScanF ta th item fuel (kept.erase k) (i + 1)
        else (kept, false)
      else dedupScanF ta th item fuel kept (i + 1)
    else (kept, true)

/-- One candidate of `OverlapDeduplicator.process` against the kept list. -/
def dedupScan (ta : Bool) (th : Rat) (item : Item) (kept : List Item) :
    List Item × Bool :=
  dedupScanF ta th item (kept.length + 1) kept 0

/-- The outer walk of `OverlapDeduplicator.process` over the sorted
candidates, threading the kept list. -/
def dedupKeep (ta : Bool) (th : Rat) : List Item → List Item → List Item
  | [], kept => kept
  | item :: rest, kept =>
    let r := dedupScan ta th item kept
    dedupKeep ta th rest (if r.2 then r.1 ++ [item] else r.1)

/-- `OverlapDeduplicator.process`: screen out items without a valid
`char_interval`, sort the rest by interval start, greedily deduplicate, and
append the screened-out items. -/
def dedupProcess (th : Rat) (ta : Bool) (exts : List Item) : List Item :=
  let valid := exts.filter (fun e => (intervalOf e).isSome)
  let invalid := exts.filter (fun e => !(intervalOf e).isSome)
  if valid.isEmpty then invalid
  else dedupKeep ta th (sortByKey dedupKey valid) [] ++ invalid

/-! ## Confidence Scorer (`src/scripts/confidence_scorer.py`) -/

/-- The `match_type` read of `ConfidenceScorer._score`:
`ext.get('source_location', {}).get('match_type', 'none')`. -/
def matchTypeOf (e : Item) : List Char :=
  match e.source_location with
  | none => strNoneTag
  | some loc => loc.match_type.getD strNoneTag

/-- `ConfidenceScorer.MATCH_SCORES` lookup with default `0.1` (the `"none"`
entry and the dict-miss default coincide). -/
def matchScoreOf (mt : List Char) : Rat :=
  if mt = strExact then 1.0
  else if mt = strNormalized then 0.85
  else if mt = strFuzzy then 0.6
  else 0.1

/-- The `1` point of a truthy `summary_cn` in
`ConfidenceScorer._calc_attr_completeness`. -/
def hasSummaryBit (e : Item) : Nat := if truthyStr e.summary_cn then 1 else 0

/-- The count of truthy attributes among `key_attrs[1:]`
(`trigger_context`, `consequence`, `reason`, `related_entities`) in
`ConfidenceScorer._calc_attr_completeness`. -/
def otherAttrCount (e : Item) : Nat :=
  [e.trigger_context, e.consequence, e.reason, e.related_entities].countP truthyStr

/-- `ConfidenceScorer._calc_attr_completeness`:
`min(1.0, (has_summary + other_attrs) / 3.0)`. -/
def calcAttrCompleteness (e : Item) : Rat :=
  rmin 1 (((hasSummaryBit e + otherAttrCount e : Nat) : Rat) / 3)

/-- `ConfidenceScorer._calc_text_specificity`. -/
def calcTextSpecificity (e : Item) : Rat :=
  let length := (e.text.getD []).length
  if length = 0 then 0
  else if 10 ≤ length ∧ length ≤ 200 then 1
  else if length < 10 then ((length : Nat) : Rat) / 10
  else rmax 0.3 (1 - (((length : Nat) : Rat) - 200) / 800)

/-- `ConfidenceScorer._calc_type_consistency`: `0.5` without a truthy `type`,
`0.9` for a standard type, otherwise `0.7`. -/
def calcTypeConsistency (e : Item) : Rat :=
  if !truthyStr e.type then 0.5
  else if e.type.getD [] ∈
      [strEntity, strRule, strConstraint, strEvent, strState, strRelation] then 0.9
  else 0.7

/-- `ConfidenceScorer._score`: the weighted sum of the four sub-scores
(weights `0.35 / 0.25 / 0.20 / 0.20`), clamped to `[0, 1]`. -/
def csScore (e : Item) : Rat :=
  rmin 1 (rmax 0
    (0.35 * matchScoreOf (matchTypeOf e) +
     0.25 * calcAttrCompleteness e +
     0.20 * calcTextSpecificity e +
     0.20 * calcTypeConsistency e))

/-- The composite confidence stored by `ConfidenceScorer.process`:
`round(self._score(ext), 3)`. -/
def csConfidence (e : Item) : Rat := round3 (csScore e)

/-- `ConfidenceScorer.process`: copy each item with its `confidence` set. -/
def csProcess (exts : List Item) : List Item :=
  exts.map (fun e => { e with confidence := some (csConfidence e) })

/-! ## Entity Resolver (`src/scripts/entity_resolver.py`) -/

/-- `EntityResolver._similarity`: `0` when a name is empty, `1` on equality,
`0.9 * shorter/longer` on containment, else the `SequenceMatcher` ratio. -/
def nameSim (a b : List Char) : Rat :=
  if a.isEmpty || b.isEmpty then 0
  else if a = b then 1
  else if isSubstr a b || isSubstr b a then
    0.9 * (((nmin a.length b.length : Nat) : Rat) / ((nmax a.length b.length : Nat) : Rat))
  else smRatio a b

/-- The name an entity contributes to similarity comparisons:
`entity.get('text', '')`. -/
def entName (e : Item) : List Char := e.text.getD []

/-- The inner scan of `EntityResolver._cluster`: fold every later,
unassigned entity whose name is similar to the seed's into the cluster,
marking its index assigned.  `en` walks the `enumerate(entities)` pairs. -/
def erScan (th : Rat) (nameI : List Char) (i : Nat) :
    List (Nat × Item) → List Nat → List Item × List Nat
  | [], assigned => ([], assigned)
  | (j, other) :: rest, assigned =>
    if j ∈ assigned ∨ j ≤ i then erScan th nameI i rest assigned
    else if th ≤ nameSim nameI (entName other) then
      let r := erScan th nameI i rest (j :: assigned)
      (other :: r.1, r.2)
    else erScan th nameI i rest assigned

/-- The outer loop of `EntityResolver._cluster`: each unassigned entity (in
input order) seeds a new cluster and the inner scan fills it.  `all` stays
the full `enumerate(entities)` list while the first argument walks it. -/
def erSeed (th : Rat) (all : List (Nat × Item)) :
    List (Nat × Item) → List Nat → List (List Item)
  | [], _ => []
  | (i, e) :: rest, assigned =>
    if i ∈ assigned then erSeed th all rest assigned
    else
      let r := erScan th (entName e) i all (i :: assigned)
      (e :: r.1) :: erSeed th all rest r.2

/-- `EntityResolver._cluster`. -/
def erClusterList (th : Rat) (entities : List Item) : List (List Item) :=
  erSeed th entities.enum entities.enum []

/-- `EntityResolver._canonical_score`: `(no_space_bonus, len(name))`. -/
def canonicalScore (name : List Char) : Nat × Nat :=
  (if ' ' ∈ name then 0 else 1, name.length)

/-- Strict lexicographic comparison of canonical scores. -/
def scoreLt (p q : Nat × Nat) : Bool :=
  p.1 < q.1 || (p.1 = q.1 && p.2 < q.2)

/-- Python `max(cluster, key=...)` keeps the first maximal element: the
current best is replaced only on a strictly greater key. -/
def erRepAux (cur : Item) : List Item → Item
  | [] => cur
  | x :: xs =>
    erRepAux (if scoreLt (canonicalScore (entName cur)) (canonicalScore (entName x))
              then x else cur) xs

/-- The representative of a cluster,
`max(cluster, key=lambda e: self._canonical_score(e.get('text', '')))`
(clusters produced by `_cluster` are never empty; `blankItem` is a dummy). -/
def erRep : List Item → Item
  | [] => blankItem
  | c :: cs => erRepAux c cs

/-- The alias entries one cluster adds in `EntityResolver._build_alias_map`:
each member name other than the canonical name maps to the canonical name. -/
def erClusterAliases (c : List Item) (m : List (List Char × List Char)) :
    List (List Char × List Char) :=
  let canonicalName := entName (erRep c)
  c.foldl
    (fun m e =>
      if entName e ≠ canonicalName then alistInsert (entName e) canonicalName m
      else m)
    m

/-- `EntityResolver._build_alias_map`. -/
def erBuildAliasMap (clusters : List (List Item)) : List (List Char × List Char) :=
  clusters.foldl (fun m c => erClusterAliases c m) []

/-- The endpoint rewrite of `EntityResolver._rewrite_references`: a present
endpoint is replaced when it is a key of the alias map, otherwise kept; a
missing endpoint stays missing (Python's `if from_entity in alias_map`). -/
def aliasLookup (m : List (List Char × List Char)) (v : Option (List Char)) :
    Option (List Char) :=
  match v with
  | some f =>
    match alistGet f m with
    | some c => some c
    | none => some f
  | none => none

/-- The per-item body of `EntityResolver._rewrite_references`: a copy of the
item, with `from`/`to` replaced through the alias map when the item has type
`"relation"`. -/
def rewriteOne (m : List (List Char × List Char)) (e : Item) : Item :=
  if e.type = some strRelation then
    { e with «from» := aliasLookup m e.«from», «to» := aliasLookup m e.«to» }
  else e

/-- `EntityResolver.process`: no-op on batches with at most one entity;
otherwise cluster the entities, build the alias map, rewrite relation
endpoints, and keep an entity item only if its `text` is the `text` of some
cluster representative. -/
def erProcess (th : Rat) (exts : List Item) : List Item :=
  let entities := exts.filter (fun e => e.type == some strEntity)
  if entities.length ≤ 1 then exts
  else
    let clusters := erClusterList th entities
    let aliasMap := erBuildAliasMap clusters
    let canonicalNames := clusters.map (fun c => (erRep c).text)
    let updated := exts.map (rewriteOne aliasMap)
    updated.filter (fun e =>
      if e.type == some strEntity then canonicalNames.contains e.text else true)

/-! ## Relation Inferrer (`src/scripts/relation_inferrer.py`) -/

/-- `HR_RELATION_RULES`: extraction type to
`(relation_type, attribute field naming the target)`. -/
def hrRuleFor (t : List Char) : Option (List Char × List Char) :=
  if t = "experience".toList then some ("worked_at".toList, "company".toList)
  else if t = "education".toList then some ("studied_at".toList, "school".toList)
  else if t = "skill".toList then some ("has_skill".toList, "name".toList)
  else if t = "certification".toList then some ("certified_by".toList, "name".toList)
  else none

/-- `RelationInferrer._get_target_name`: the truthy `attributes[field]`,
falling back to `extraction.get("summary_cn", extraction.get("text", ""))`
(a dict `get` chain on key presence, not truthiness). -/
def riTargetName (ext : Item) (field : List Char) : List Char :=
  let name := (alistGet field ext.attributes).getD []
  if !name.isEmpty then name
  else
    match ext.summary_cn with
    | some s => s
    | none => ext.text.getD []

/-- `RelationInferrer._compute_confidence`:
`round(extraction.get("confidence", 0.7) * 0.85, 3)`. -/
def riConfOf (ext : Item) : Rat := round3 (ext.confidence.getD 0.7 * 0.85)

/-- The relation dict built inside `RelationInferrer._infer_for_candidate`:
keys `from`, `to`, `type`, `target_name`, `scope`, `confidence`, `inferred`
(note: no `relation_type` key). -/
def mkInferred (cid : List Char) (ext : Item) (rt nameField : List Char) : Item :=
  { blankItem with
    «from» := some cid
    «to» := some (ext.id.getD [])
    type := some rt
    target_name := some (riTargetName ext nameField)
    scope := some strResume
    confidence := some (riConfOf ext)
    inferred := some true }

/-- `RelationInferrer._infer_for_candidate`: one inferred relation per item
whose `type` has a rule. -/
def riInferFor (cid : List Char) (exts : List Item) : List Item :=
  exts.filterMap (fun ext =>
    match hrRuleFor (ext.type.getD []) with
    | none => none
    | some rule => some (mkInferred cid ext rule.1 rule.2))

/-- `RelationInferrer.process`: returns the untouched extraction list paired
with the relations inferred for every `"candidate"`-typed item. -/
def riProcess (exts : List Item) : List Item × List Item :=
  let candidates := exts.filter (fun e => e.type == some strCandidate)
  (exts,
    if candidates.isEmpty then []
    else candidates.foldl (fun acc c => acc ++ riInferFor (c.id.getD []) exts) [])

/-! ## KG Injector (`src/scripts/kg_injector.py`) -/

/-- A KG entity `{name, entityType, observations}`. -/
structure KGEntity where
  name : List Char
  entityType : List Char
  observations : List (List Char)
deriving DecidableEq

/-- A KG relation `{from, to, relationType}` (fields renamed from the dict
keys `from`/`to`). -/
structure KGRel where
  srcName : List Char
  dstName : List Char
  relationType : List Char
deriving DecidableEq

/-- The KG output `{entities: [...], relations: [...]}`. -/
structure KGOut where
  entities : List KGEntity
  relations : List KGRel
deriving DecidableEq

/-- The effective confidence of `KGInjector.convert`'s filters:
`e.get('confidence', 0)`. -/
def kgConfVal (e : Item) : Rat := e.confidence.getD 0

/-- The entity-like type screen of `KGInjector.convert`:
`ext.get('type') in ['entity', 'rule', 'constraint', 'event', 'state']`. -/
def kgEntityLike (e : Item) : Bool :=
  match e.type with
  | none => false
  | some t => t ∈ [strEntity, strRule, strConstraint, strEvent, strState]

/-- Decimal digits of a natural number (via `Nat.repr`). -/
def natStr (n : Nat) : List Char := (toString n).toList

/-- Python `f"{x:.2f}"` on an exact rational: round half to even at two
decimals and print (negative values, unreached by the pipeline's confidence
values, print without Python's `-0.00` quirk). -/
def fmt2 (q : Rat) : List Char :=
  let n := rhe (q * 100)
  let m := n.natAbs
  (if n < 0 then ['-'] else []) ++ natStr (m / 100) ++ ['.'] ++
    (if m % 100 < 10 then ['0'] else []) ++ natStr (m % 100)

/-- `KGInjector._make_name`: truncated `summary_cn`, else whitespace-
collapsed truncated `text`, else a placeholder (the source uses
`f"Entity_{id(ext)}"`, a memory address; modelled by a constant tag). -/
def kgMakeName (ext : Item) : List Char :=
  if truthyStr ext.summary_cn then (ext.summary_cn.getD []).take 50
  else if truthyStr ext.text then (wsCollapse (ext.text.getD [])).take 50
  else "Entity_anon".toList

/-- `KGInjector._convert_entity`: name, entity type (default `"entity"`),
and the ordered observations list. -/
def kgConvertEntity (ext : Item) : KGEntity :=
  let summaryObs := match ext.summary_cn with
    | some s => if s.isEmpty then [] else [s]
    | none => []
  let lineObs := match ext.source_location with
    | none => []
    | some loc => match loc.line with
      | some n => if n ≠ 0 then
          ["Source: ".toList ++ ext.source_file.getD "unknown".toList ++
            [':'] ++ (toString n).toList]
        else []
      | none => []
  let confObs := match ext.confidence with
    | some c => ["Confidence: ".toList ++ fmt2 c]
    | none => []
  let attrObs :=
    (match ext.trigger_context with
      | some v => if v.isEmpty then [] else ["trigger_context: ".toList ++ v]
      | none => []) ++
    (match ext.consequence with
      | some v => if v.isEmpty then [] else ["consequence: ".toList ++ v]
      | none => []) ++
    (match ext.reason with
      | some v => if v.isEmpty then [] else ["reason: ".toList ++ v]
      | none => [])
  let textObs :=
    if truthyStr ext.summary_cn then []
    else
      let t := (ext.text.getD []).take 100
      if t.isEmpty then [] else ["Text: ".toList ++ t]
  { name := kgMakeName ext
    entityType := ext.type.getD strEntity
    observations := summaryObs ++ lineObs ++ confObs ++ attrObs ++ textObs }

/-- `KGInjector._convert_relation`: `from`/`to` with empty-string defaults
and `relation_type` with default `"relates_to"`. -/
def kgConvertRelation (rel : Item) : KGRel :=
  { srcName := rel.«from».getD []
    dstName := rel.«to».getD []
    relationType := rel.relation_type.getD strRelatesTo }

/-- `KGInjector.convert`: keep items and passed-in relations whose effective
confidence reaches the threshold, convert entity-like items to KG entities,
and relation-typed items followed by the passed-in relations to KG relations
(`relations=None` and `relations=[]` behave alike and are both modelled by
the empty list). -/
def kgConvert (t : Rat) (exts rels : List Item) : KGOut :=
  let hi := exts.filter (fun e => t ≤ kgConfVal e)
  { entities := (hi.filter kgEntityLike).map kgConvertEntity
    relations :=
      (hi.filter (fun e => e.type == some strRelation)).map kgConvertRelation ++
        (rels.filter (fun r => t ≤ kgConfVal r)).map kgConvertRelation }

/-! ## Concrete inputs used by the claim theorems -/

/-- A location carrying only a valid `char_interval`, as dedup inputs do. -/
def mkIntervalLoc (s e : Int) : SourceLoc :=
  { char_start := some s, char_end := some e,
    char_interval := some (some s, some e),
    line := some 1, match_type := none, confidence := none }

/-- Dedup input: interval `(0, 10)`, no extra attributes. -/
def itmA : Item :=
  { blankItem with
      type := some strEntity
      source_location := some (mkIntervalLoc 0 10) }

/-- Dedup input: interval `(5, 40)`, two extra attributes. -/
def itmB : Item :=
  { blankItem with
      type := some strEntity
      source_location := some (mkIntervalLoc 5 40)
      summary_cn := some "b".toList
      trigger_context := some "b2".toList }

/-- Dedup input: interval `(6, 12)`, one extra attribute. -/
def itmC : Item :=
  { blankItem with
      type := some strEntity
      source_location := some (mkIntervalLoc 6 12)
      summary_cn := some "c".toList }

/-- An entity named `Foo` with one distinguishing attribute. -/
def dupFoo1 : Item :=
  { blankItem with
      type := some strEntity
      text := some "Foo".toList
      summary_cn := some "x".toList }

/-- A second, distinct entity also named `Foo`. -/
def dupFoo2 : Item :=
  { blankItem with
      type := some strEntity
      text := some "Foo".toList
      summary_cn := some "y".toList }

/-- An item with all four non-summary descriptive attributes and no
summary. -/
def attrsFull : Item :=
  { blankItem with
      trigger_context := some "a".toList
      consequence := some "b".toList
      reason := some "c".toList
      related_entities := some "d".toList }

/-- Entity `abcdefgh` (length 8). -/
def entAB1 : Item := { blankItem with type := some strEntity, text := some "abcdefgh".toList }
/-- Entity `abcdefghi` (length 9, contains `abcdefgh`). -/
def entAB2 : Item := { blankItem with type := some strEntity, text := some "abcdefghi".toList }
/-- Entity `abcdefghixy` (length 11, contains `abcdefghi`). -/
def entAB3 : Item := { blankItem with type := some strEntity, text := some "abcdefghixy".toList }

/-- Entity `Foo`, dissimilar to `entW2`. -/
def entW1 : Item := { blankItem with type := some strEntity, text := some "Foo".toList }
/-- Entity `Bar12345`, dissimilar to `entW1`. -/
def entW2 : Item := { blankItem with type := some strEntity, text := some "Bar12345".toList }

/-- An entity-typed item with no `confidence` key. -/
def noConfEnt : Item := { blankItem with type := some strEntity, text := some "x".toList }

/-- An entity-typed item with confidence `0.5`. -/
def halfConfEnt : Item :=
  { blankItem with
      type := some strEntity
      text := some "y".toList
      confidence := some 0.5 }

/-- A candidate item with id `c1`. -/
def candItem : Item := { blankItem with type := some strCandidate, id := some "c1".toList }

/-- A skill item with id `s1`, a `name` attribute and confidence `0.8`. -/
def skillItem : Item :=
  { blankItem with
      type := some "skill".toList
      id := some "s1".toList
      attributes := [("name".toList, "Python".toList)]
      confidence := some 0.8 }

/-- The claimed (spec-worded) attribute-completeness formula of C3, with the
non-summary attributes capped at `2` points before the division. -/
def claimedAttrCompleteness (e : Item) : Rat :=
  rmin 1 (((hasSummaryBit e + nmin (otherAttrCount e) 2 : Nat) : Rat) / 3)

/-- Set-level disjointness of two half-open integer intervals. -/
def IntervalsDisjoint (p q : Int × Int) : Prop :=
  ∀ x : Int, p.1 ≤ x → x < p.2 → q.1 ≤ x → x < q.2 → False

/-- The relation inferred for `candItem` and `skillItem`. -/
def infRel : Item := mkInferred "c1".toList skillItem "has_skill".toList "name".toList

/-- An item grounded at interval `(0, 2)`. -/
def itm8a : Item := { blankItem with source_location := some (mkIntervalLoc 0 2) }
/-- An item grounded at interval `(5, 7)`. -/
def itm8b : Item := { blankItem with source_location := some (mkIntervalLoc 5 7) }

/-! ## Helper lemmas -/

theorem rmin_eq (a b : Rat) : rmin a b = min a b := by
  unfold rmin
  rcases lt_or_le b a with h | h
  · rw [if_pos h, min_eq_right h.le]
  · rw [if_neg (not_lt.mpr h), min_eq_left h]

theorem rmax_eq (a b : Rat) : rmax a b = max a b := by
  unfold rmax
  rcases lt_or_le a b with h | h
  · rw [if_pos h, max_eq_right h.le]
  · rw [if_neg (not_lt.mpr h), max_eq_left h]

theorem imin_eq (a b : Int) : imin a b = min a b := by
  unfold imin
  rcases lt_or_le b a with h | h
  · rw [if_pos h, min_eq_right h.le]
  · rw [if_neg (not_lt.mpr h), min_eq_left h]

theorem imax_eq (a b : Int) : imax a b = max a b := by
  unfold imax
  rcases lt_or_le a b with h | h
  · rw [if_pos h, max_eq_right h.le]
  · rw [if_neg (not_lt.mpr h), max_eq_left h]

theorem rfloor_eq (q : Rat) : rfloor q = ⌊q⌋ := Rat.floor_def.symm

theorem imin_comm (a b : Int) : imin a b = imin b a := by
  rw [imin_eq, imin_eq, min_comm]

theorem imax_comm (a b : Int) : imax a b = imax b a := by
  rw [imax_eq, imax_eq, max_comm]

theorem intervalOverlap_comm (p q : Int × Int) :
    intervalOverlap p q = intervalOverlap q p := by
  simp only [intervalOverlap]
  rw [imax_comm q.1 p.1, imin_comm q.2 p.2, imin_comm (q.2 - q.1) (p.2 - p.1)]

theorem intervalOverlap_eq_zero_of_disjoint (p q : Int × Int)
    (h : IntervalsDisjoint p q) : intervalOverlap p q = 0 := by
  have hle : imin p.2 q.2 ≤ imax p.1 q.1 := by
    rw [imin_eq, imax_eq]
    by_contra hlt
    have hlt2 : max p.1 q.1 < min p.2 q.2 := lt_of_not_le hlt
    exact h (max p.1 q.1) (le_max_left _ _)
      (lt_of_lt_of_le hlt2 (min_le_left _ _))
      (le_max_right _ _)
      (lt_of_lt_of_le hlt2 (min_le_right _ _))
  simp only [intervalOverlap]
  rw [if_pos hle]

theorem rhe_nonneg (q : Rat) (hq : 0 ≤ q) : 0 ≤ rhe q := by
  unfold rhe
  rw [rfloor_eq]
  have hf : (0 : Int) ≤ ⌊q⌋ := Int.floor_nonneg.mpr hq
  dsimp only
  split
  · exact hf
  · split
    · omega
    · split
      · exact hf
      · omega

theorem rhe_le_int (q : Rat) (n : Int) (hq : q ≤ (n : Rat)) : rhe q ≤ n := by
  have hf : ⌊q⌋ ≤ n := by
    have h := Int.floor_le_floor hq
    simpa using h
  have hstep : ¬(q - ((⌊q⌋ : Int) : Rat) < 1 / 2) → ⌊q⌋ + 1 ≤ n := by
    intro hr
    have h1 : (1 : Rat) / 2 ≤ q - ((⌊q⌋ : Int) : Rat) := le_of_not_lt hr
    have h2 : ((⌊q⌋ : Int) : Rat) < (n : Rat) := by linarith
    have h3 : ⌊q⌋ < n := by exact_mod_cast h2
    omega
  unfold rhe
  rw [rfloor_eq]
  dsimp only
  split
  · exact hf
  · rename_i h1
    split
    · exact hstep h1
    · split
      · exact hf
      · exact hstep h1

theorem round3_bounds (q : Rat) (h0 : 0 ≤ q) (h1 : q ≤ 1) :
    0 ≤ round3 q ∧ round3 q ≤ 1 := by
  have hlo : (0 : Int) ≤ rhe (q * 1000) := rhe_nonneg _ (by positivity)
  have hhi : rhe (q * 1000) ≤ 1000 := by
    apply rhe_le_int
    push_cast
    linarith
  unfold round3
  constructor
  · apply div_nonneg _ (by norm_num)
    exact_mod_cast hlo
  · rw [div_le_one (by norm_num)]
    exact_mod_cast hhi

theorem csScore_bounds (e : Item) : 0 ≤ csScore e ∧ csScore e ≤ 1 := by
  unfold csScore
  rw [rmin_eq, rmax_eq]
  constructor
  · exact le_min (by norm_num) (le_max_left 0 _)
  · exact min_le_left _ _

theorem csConfidence_bounds (e : Item) : 0 ≤ csConfidence e ∧ csConfidence e ≤ 1 :=
  round3_bounds _ (csScore_bounds e).1 (csScore_bounds e).2

/-! ## Claim theorems -/

/-- C1: on the batch `[itmA, itmB, itmC]` (intervals `(0,10)`, `(5,40)`,
`(6,12)`; attribute counts 0, 2, 1; threshold `0.5`), the deduplicator
returns `[itmB, itmC]`: after `itmC` beats and removes `itmA`, the Python
`for kept_item in kept` iterator — whose list just shrank under it — skips
`itmB`, so `itmC` is kept even though it overlaps `itmB` completely
(ratio `1 > 0.5`) and `itmB` wins the "better" comparison.  This
contradicts the claimed (and spec-stated) comparison of each candidate
against *all* remaining kept items, which would have dropped `itmC`. -/
theorem dedup_c1_skips_kept_comparison :
    dedupProcess (1 / 2) false [itmA, itmB, itmC] = [itmB, itmC] ∧
      (1 / 2 : Rat) < itemOverlap itmC itmB ∧ isBetter itmB itmC = true := by
  with_unfolding_all decide

/-- C3 counterexample: on an item with no summary and all four non-summary
descriptive attributes, the code's attribute completeness is `1.0` while the
claimed formula `min(1, (s + min(o, 2)) / 3)` yields `2/3` — the code does
not cap the non-summary attributes at 2 points. -/
theorem cs_c3_cap_counterexample :
    calcAttrCompleteness attrsFull = 1 ∧
      claimedAttrCompleteness attrsFull = 2 / 3 ∧
      calcAttrCompleteness attrsFull ≠ claimedAttrCompleteness attrsFull := by
  with_unfolding_all decide

/-- C3 (amended): the attribute-completeness sub-score equals
`min(1, (s + o) / 3)` where `s` is the summary indicator and `o` the
*uncapped* count of the four other designated attributes present (so `o` can
contribute up to 4 points; only the final quotient is capped at 1). -/
theorem cs_c3_attr_completeness_formula (e : Item) :
    calcAttrCompleteness e =
      min 1 (((if truthyStr e.summary_cn then (1 : Rat) else 0) +
        ((if truthyStr e.trigger_context then (1 : Rat) else 0) +
         (if truthyStr e.consequence then (1 : Rat) else 0) +
         (if truthyStr e.reason then (1 : Rat) else 0) +
         (if truthyStr e.related_entities then (1 : Rat) else 0))) / 3) := by
  unfold calcAttrCompleteness hasSummaryBit otherAttrCount
  rw [rmin_eq]
  cases h1 : truthyStr e.summary_cn <;>
    cases h2 : truthyStr e.trigger_context <;>
      cases h3 : truthyStr e.consequence <;>
        cases h4 : truthyStr e.reason <;>
          cases h5 : truthyStr e.related_entities <;>
            simp [List.countP, List.countP.go, h1, h2, h3, h4, h5] <;> norm_num

/-- C7: every confidence value written by `ConfidenceScorer.process` lies in
the closed interval `[0, 1]`. -/
theorem cs_c7_confidence_in_unit_interval (exts : List Item) (e : Item)
    (he : e ∈ csProcess exts) :
    ∃ c, e.confidence = some c ∧ 0 ≤ c ∧ c ≤ 1 := by
  obtain ⟨x, _, rfl⟩ := List.mem_map.1 he
  exact ⟨csConfidence x, rfl, (csConfidence_bounds x).1, (csConfidence_bounds x).2⟩

theorem cs_c7_confidence_in_unit_interval_witness :
    ∃ c, (Item.confidence
        { blankItem with confidence := some (csConfidence blankItem) }) = some c ∧
      0 ≤ c ∧ c ≤ 1 :=
  cs_c7_confidence_in_unit_interval [blankItem] _ (List.mem_singleton.mpr rfl)

/-- C8: the overlap ratio of two items carrying valid `char_interval`s is
symmetric, and it is `0` whenever the two half-open intervals share no
point. -/
theorem dedup_c8_overlap_symm_disjoint_zero (a b : Item) (ia ib : Int × Int)
    (ha : intervalOf a = some ia) (hb : intervalOf b = some ib) :
    itemOverlap a b = itemOverlap b a ∧
      (IntervalsDisjoint ia ib → itemOverlap a b = 0) := by
  unfold itemOverlap
  rw [ha, hb]
  simp only [Option.getD_some]
  exact ⟨intervalOverlap_comm ia ib,
    fun h => intervalOverlap_eq_zero_of_disjoint ia ib h⟩

theorem dedup_c8_overlap_symm_disjoint_zero_witness :
    itemOverlap itm8a itm8b = itemOverlap itm8b itm8a ∧ itemOverlap itm8a itm8b = 0 :=
  ⟨(dedup_c8_overlap_symm_disjoint_zero itm8a itm8b (0, 2) (5, 7) rfl rfl).1,
    (dedup_c8_overlap_symm_disjoint_zero itm8a itm8b (0, 2) (5, 7) rfl rfl).2
      (fun x h1 h2 h3 h4 => by omega)⟩

/-- C6 counterexample: with threshold `0`, an entity-typed item carrying no
`confidence` key (treated as confidence `0` by `e.get('confidence', 0)`)
does appear in the output graph, contradicting the claim that items with no
confidence never appear. -/
theorem kg_c6_no_confidence_counterexample :
    noConfEnt.confidence = none ∧
      (kgConvert 0 [noConfEnt] []).entities = [kgConvertEntity noConfEnt] :=
  ⟨rfl, by with_unfolding_all rfl⟩

/-- C6 (amended): every entity or relation emitted by `KGInjector.convert`
originates from an input item (or passed-in relation) whose *effective*
confidence `e.get('confidence', 0)` is at least the threshold `t`; when
`t > 0` this forces an explicit confidence of at least `t`, so items with
confidence below `t` or with no confidence never appear.  (With `t ≤ 0`,
items with no confidence are emitted — see the counterexample.) -/
theorem kg_c6_threshold_provenance (t : Rat) (exts rels : List Item) :
    (∀ ent ∈ (kgConvert t exts rels).entities,
        ∃ e, e ∈ exts ∧ kgConvertEntity e = ent ∧ t ≤ kgConfVal e ∧
          (0 < t → ∃ c, e.confidence = some c ∧ t ≤ c)) ∧
    (∀ kr ∈ (kgConvert t exts rels).relations,
        ∃ r, (r ∈ exts ∨ r ∈ rels) ∧ kgConvertRelation r = kr ∧ t ≤ kgConfVal r ∧
          (0 < t → ∃ c, r.confidence = some c ∧ t ≤ c)) := by
  have conf_case : ∀ e : Item, t ≤ kgConfVal e → 0 < t →
      ∃ c, e.confidence = some c ∧ t ≤ c := by
    intro e hle htpos
    cases hc : e.confidence with
    | none =>
      exfalso
      unfold kgConfVal at hle
      rw [hc] at hle
      simp only [Option.getD_none] at hle
      linarith
    | some c =>
      refine ⟨c, rfl, ?_⟩
      unfold kgConfVal at hle
      rw [hc] at hle
      simpa using hle
  constructor
  · intro ent hent
    unfold kgConvert at hent
    dsimp only at hent
    obtain ⟨e, he, rfl⟩ := List.mem_map.1 hent
    obtain ⟨he1, _⟩ := List.mem_filter.1 he
    obtain ⟨he3, he4⟩ := List.mem_filter.1 he1
    have h5 : t ≤ kgConfVal e := of_decide_eq_true he4
    exact ⟨e, he3, rfl, h5, conf_case e h5⟩
  · intro kr hkr
    unfold kgConvert at hkr
    dsimp only at hkr
    rcases List.mem_append.1 hkr with h | h
    · obtain ⟨e, he, rfl⟩ := List.mem_map.1 h
      obtain ⟨he1, _⟩ := List.mem_filter.1 he
      obtain ⟨he3, he4⟩ := List.mem_filter.1 he1
      have h5 : t ≤ kgConfVal e := of_decide_eq_true he4
      exact ⟨e, Or.inl he3, rfl, h5, conf_case e h5⟩
    · obtain ⟨e, he, rfl⟩ := List.mem_map.1 h
      obtain ⟨he3, he4⟩ := List.mem_filter.1 he
      have h5 : t ≤ kgConfVal e := of_decide_eq_true he4
      exact ⟨e, Or.inr he3, rfl, h5, conf_case e h5⟩

theorem kg_c6_threshold_provenance_witness :
    ∃ e, e ∈ [halfConfEnt] ∧ kgConvertEntity e = kgConvertEntity halfConfEnt ∧
      (2 / 5 : Rat) ≤ kgConfVal e ∧
      ((0 : Rat) < 2 / 5 → ∃ c, e.confidence = some c ∧ (2 / 5 : Rat) ≤ c) :=
  (kg_c6_threshold_provenance (2 / 5) [halfConfEnt] []).1 (kgConvertEntity halfConfEnt)
    (by with_unfolding_all exact List.mem_singleton.mpr rfl)

/-- `List.getD` of a mapped list at an in-range index. -/
theorem getD_map_lt (f : Item → Item) (l : List Item) (i : Nat) (d : Item)
    (h : i < l.length) : (l.map f).getD i d = f (l.getD i d) := by
  induction l generalizing i with
  | nil => simp at h
  | cons a tl ih =>
    cases i with
    | zero => simp
    | succ n =>
      simp only [List.map_cons, List.getD_cons_succ]
      exact ih n (by simpa using h)

/-- C9: an item whose `text` key is absent or empty passes through
`SourceGrounder.process` unchanged — in particular no `source_location` is
added to it. -/
theorem sg_c9_empty_text_passthrough (src : List Char) (items : List Item)
    (i : Nat) (hi : i < items.length)
    (ht : (items.getD i blankItem).text = none ∨ (items.getD i blankItem).text = some []) :
    (sgProcess src items).getD i blankItem = items.getD i blankItem := by
  unfold sgProcess
  rw [getD_map_lt _ _ _ _ hi]
  unfold sgGroundOne
  rcases ht with h | h <;> rw [h] <;> rfl

theorem sg_c9_empty_text_passthrough_witness :
    (sgProcess "abc".toList [blankItem]).getD 0 blankItem = [blankItem].getD 0 blankItem :=
  sg_c9_empty_text_passthrough "abc".toList [blankItem] 0 (by decide) (Or.inl rfl)

/-- `List.isPrefixOf` decides the prefix relation. -/
theorem prefixOfIff (a b : List Char) : a.isPrefixOf b = true ↔ a <+: b := by
  exact List.isPrefixOf_iff_prefix

/-- `strFind` finds every substring: if `q` occurs in `hay`, it returns an
index at which `q` is a prefix of the rest. -/
theorem strFind_spec (q : List Char) :
    ∀ hay : List Char, q <:+: hay →
      ∃ p, strFind q hay = some p ∧ q <+: hay.drop p := by
  intro hay
  induction hay with
  | nil =>
    intro h
    have hq : q = [] := List.eq_nil_of_infix_nil h
    subst hq
    exact ⟨0, rfl, by simp⟩
  | cons c tl ih =>
    intro h
    by_cases hp : q.isPrefixOf (c :: tl)
    · refine ⟨0, ?_, ?_⟩
      · simp [strFind, hp]
      · simpa using (prefixOfIff q (c :: tl)).mp hp
    · obtain ⟨s, u, hsu⟩ := h
      cases s with
      | nil =>
        exfalso
        apply hp
        apply (prefixOfIff q (c :: tl)).mpr
        exact ⟨u, by simpa using hsu⟩
      | cons c0 s0 =>
        simp only [List.cons_append] at hsu
        injection hsu with h1 h2
        obtain ⟨p, hf, hpre⟩ := ih ⟨s0, u, h2⟩
        refine ⟨p + 1, ?_, ?_⟩
        · simp [strFind, hp, hf]
        · simpa using hpre

/-- C5: for an item whose `text` is non-empty and occurs literally in the
source, grounding assigns a `source_location` with `match_type = "exact"`,
confidence `1.0`, and `source[char_start:char_end]` equal to the text. -/
theorem sg_c5_exact_grounding (src q : List Char) (ext : Item)
    (ht : ext.text = some q) (hne : q ≠ []) (hin : q <:+: src) :
    ∃ s : Nat,
      (sgGroundOne src ext).source_location =
          some (mkLoc src s (s + q.length) strExact 1.0) ∧
        (mkLoc src s (s + q.length) strExact 1.0).match_type = some strExact ∧
        (mkLoc src s (s + q.length) strExact 1.0).confidence = some 1.0 ∧
        (mkLoc src s (s + q.length) strExact 1.0).char_start = some (s : Int) ∧
        (mkLoc src s (s + q.length) strExact 1.0).char_end
            = some ((s + q.length : Nat) : Int) ∧
        (src.drop s).take q.length = q := by
  obtain ⟨p, hfind, hpre⟩ := strFind_spec q src hin
  have hqe : q.isEmpty = false := by
    cases q with
    | nil => exact absurd rfl hne
    | cons a b => rfl
  refine ⟨p, ?_, rfl, rfl, rfl, rfl, ?_⟩
  · unfold sgGroundOne sgAlign
    rw [ht]
    simp only [Option.getD_some, hqe, Bool.false_eq_true, if_false, hfind]
  · exact (List.prefix_iff_eq_take.mp hpre).symm

theorem sg_c5_exact_grounding_witness :
    ∃ s : Nat,
      (sgGroundOne "hello world".toList
            { blankItem with text := some "world".toList }).source_location =
          some (mkLoc "hello world".toList s (s + "world".toList.length) strExact 1.0) ∧
        (mkLoc "hello world".toList s (s + "world".toList.length) strExact
            1.0).match_type = some strExact ∧
        (mkLoc "hello world".toList s (s + "world".toList.length) strExact
            1.0).confidence = some 1.0 ∧
        (mkLoc "hello world".toList s (s + "world".toList.length) strExact
            1.0).char_start = some (s : Int) ∧
        (mkLoc "hello world".toList s (s + "world".toList.length) strExact
            1.0).char_end = some ((s + "world".toList.length : Nat) : Int) ∧
        ("hello world".toList.drop s).take "world".toList.length = "world".toList :=
  sg_c5_exact_grounding "hello world".toList "world".toList
    { blankItem with text := some "world".toList } rfl (by decide) (by decide)

/-- Membership in a fold that appends per-element lists. -/
theorem mem_foldl_append (g : Item → List Item) (l : List Item)
    (init : List Item) (r : Item) :
    r ∈ l.foldl (fun acc c => acc ++ g c) init ↔
      r ∈ init ∨ ∃ c, c ∈ l ∧ r ∈ g c := by
  induction l generalizing init with
  | nil => simp
  | cons a t ih =>
    simp only [List.foldl_cons]
    rw [ih]
    simp only [List.mem_append, List.mem_cons]
    constructor
    · rintro ((h | h) | ⟨c, hc, hr⟩)
      · exact Or.inl h
      · exact Or.inr ⟨a, Or.inl rfl, h⟩
      · exact Or.inr ⟨c, Or.inr hc, hr⟩
    · rintro (h | ⟨c, rfl | hc, hr⟩)
      · exact Or.inl (Or.inl h)
      · exact Or.inl (Or.inr hr)
      · exact Or.inr ⟨c, hc, hr⟩

/-- Relations built by `RelationInferrer._infer_for_candidate` carry no
`relation_type` key. -/
theorem mem_riInferFor_rt_none (cid : List Char) (exts : List Item) (r : Item)
    (h : r ∈ riInferFor cid exts) : r.relation_type = none := by
  unfold riInferFor at h
  obtain ⟨a, _, hfa⟩ := List.mem_filterMap.1 h
  cases hr : hrRuleFor (a.type.getD []) with
  | none => rw [hr] at hfa; cases hfa
  | some rule =>
    rw [hr] at hfa
    injection hfa with h2
    subst h2
    rfl

/-- Relations returned by `RelationInferrer.process` carry no
`relation_type` key. -/
theorem riProcess_rt_none (exts : List Item) (r : Item)
    (h : r ∈ (riProcess exts).2) : r.relation_type = none := by
  unfold riProcess at h
  dsimp only at h
  split at h
  · cases h
  · rcases (mem_foldl_append _ _ _ _).1 h with h0 | ⟨c, _, hc⟩
    · cases h0
    · exact mem_riInferFor_rt_none _ _ _ hc

/-- C10: every relation inferred by `RelationInferrer.process` stores its
kind under the `type` key and has no `relation_type` key, while
`KGInjector._convert_relation` reads only `relation_type` with default
`"relates_to"`; hence every inferred relation that passes the confidence
threshold yields a KG relation with `relationType = "relates_to"` regardless
of the rule's relation kind. -/
theorem ri_c10_inferred_relation_relates_to
    (exts items : List Item) (t : Rat) (r : Item)
    (hr : r ∈ (riProcess exts).2) (hc : t ≤ kgConfVal r) :
    (kgConvertRelation r).relationType = strRelatesTo ∧
      kgConvertRelation r ∈ (kgConvert t items (riProcess exts).2).relations := by
  have hnone : r.relation_type = none := riProcess_rt_none exts r hr
  constructor
  · unfold kgConvertRelation
    rw [hnone]
    rfl
  · unfold kgConvert
    dsimp only
    apply List.mem_append_right
    apply List.mem_map_of_mem
    exact List.mem_filter.2 ⟨hr, decide_eq_true hc⟩

theorem ri_c10_inferred_relation_relates_to_witness :
    (kgConvertRelation infRel).relationType = strRelatesTo ∧
      kgConvertRelation infRel ∈
        (kgConvert (1 / 2) [candItem] (riProcess [candItem, skillItem]).2).relations :=
  ri_c10_inferred_relation_relates_to [candItem, skillItem] [candItem] (1 / 2) infRel
    (by with_unfolding_all decide) (by with_unfolding_all decide)

/-! ## Entity-resolver helper lemmas -/

theorem aliasLookup_nil (v : Option (List Char)) : aliasLookup [] v = v := by
  cases v <;> rfl

theorem rewriteOne_nil (e : Item) : rewriteOne [] e = e := by
  unfold rewriteOne
  split
  · rw [aliasLookup_nil, aliasLookup_nil]
  · rfl

theorem rewriteOne_type (m : List (List Char × List Char)) (e : Item) :
    (rewriteOne m e).type = e.type := by
  unfold rewriteOne
  split <;> rfl

theorem rewriteOne_text (m : List (List Char × List Char)) (e : Item) :
    (rewriteOne m e).text = e.text := by
  unfold rewriteOne
  split <;> rfl

theorem rewriteOne_of_ne_relation (m : List (List Char × List Char)) (e : Item)
    (h : e.type ≠ some strRelation) : rewriteOne m e = e := by
  unfold rewriteOne
  rw [if_neg h]

theorem mem_enumFrom_snd (p : Nat × Item) :
    ∀ (n : Nat) (l : List Item), p ∈ List.enumFrom n l → p.2 ∈ l := by
  intro n l
  induction l generalizing n with
  | nil => intro h; cases h
  | cons a t ih =>
    intro h
    rw [List.enumFrom_cons] at h
    rcases List.mem_cons.1 h with h | h
    · subst h; exact List.mem_cons_self _ _
    · exact List.mem_cons_of_mem _ (ih (n + 1) h)

theorem mem_enumFrom_le (p : Nat × Item) :
    ∀ (n : Nat) (l : List Item), p ∈ List.enumFrom n l → n ≤ p.1 := by
  intro n l
  induction l generalizing n with
  | nil => intro h; cases h
  | cons a t ih =>
    intro h
    rw [List.enumFrom_cons] at h
    rcases List.mem_cons.1 h with h | h
    · subst h; exact Nat.le_refl _
    · exact Nat.le_of_succ_le (ih (n + 1) h)

/-- A pairwise relation on a list carries over to index-ordered pairs of its
enumeration. -/
theorem pairwise_enumFrom {R : Item → Item → Prop} :
    ∀ (l : List Item) (n : Nat), l.Pairwise R →
      ∀ p ∈ List.enumFrom n l, ∀ q ∈ List.enumFrom n l, p.1 < q.1 → R p.2 q.2 := by
  intro l
  induction l with
  | nil => intro n _ p hp; cases hp
  | cons a t ih =>
    intro n h p hp q hq hlt
    obtain ⟨hhead, htail⟩ := List.pairwise_cons.1 h
    rw [List.enumFrom_cons] at hp hq
    rcases List.mem_cons.1 hp with hp | hp
    · rcases List.mem_cons.1 hq with hq | hq
      · subst hp; subst hq; omega
      · subst hp
        exact hhead _ (mem_enumFrom_snd q (n + 1) t hq)
    · rcases List.mem_cons.1 hq with hq | hq
      · subst hq
        have := mem_enumFrom_le p (n + 1) t hp
        omega
      · exact ih (n + 1) htail p hp q hq hlt

/-- If every later entity is dissimilar to the seed, the inner scan adds
nothing and leaves `assigned` unchanged. -/
theorem erScan_nil_of_dissimilar (th : Rat) (nameI : List Char) (i : Nat) :
    ∀ (en : List (Nat × Item)) (assigned : List Nat),
      (∀ p ∈ en, i < p.1 → nameSim nameI (entName p.2) < th) →
      erScan th nameI i en assigned = ([], assigned) := by
  intro en
  induction en with
  | nil => intro assigned _; rfl
  | cons p rest ih =>
    intro assigned hsim
    obtain ⟨j, other⟩ := p
    unfold erScan
    by_cases h1 : j ∈ assigned ∨ j ≤ i
    · rw [if_pos h1]
      exact ih assigned fun q hq => hsim q (List.mem_cons_of_mem _ hq)
    · rw [if_neg h1]
      have hj : i < j := by
        rcases Nat.lt_or_ge i j with h | h
        · exact h
        · exact absurd (Or.inr h) h1
      have hs := hsim (j, other) (List.mem_cons_self _ _) hj
      rw [if_neg (not_le.mpr hs)]
      exact ih assigned fun q hq => hsim q (List.mem_cons_of_mem _ hq)

/-- With a globally dissimilar entity list, the outer clustering loop turns
every not-yet-assigned entry into a singleton cluster. -/
theorem erSeed_singletons_of_dissimilar (th : Rat) (en : List (Nat × Item))
    (hsim : ∀ p ∈ en, ∀ q ∈ en, p.1 < q.1 →
      nameSim (entName p.2) (entName q.2) < th) :
    ∀ (rest : List (Nat × Item)) (assigned : List Nat),
      (∀ p ∈ rest, p ∈ en) →
      rest.Pairwise (fun p q => p.1 ≠ q.1) →
      erSeed th en rest assigned =
        (rest.filter (fun p => !decide (p.1 ∈ assigned))).map (fun p => [p.2]) := by
  intro rest
  induction rest with
  | nil => intro assigned _ _; rfl
  | cons p rest ih =>
    intro assigned hsub hpw
    obtain ⟨i, e⟩ := p
    obtain ⟨hhead, htail⟩ := List.pairwise_cons.1 hpw
    unfold erSeed
    by_cases hi : i ∈ assigned
    · rw [if_pos hi]
      rw [List.filter_cons_of_neg (by simp [hi])]
      exact ih assigned (fun q hq => hsub q (List.mem_cons_of_mem _ hq)) htail
    · rw [if_neg hi]
      rw [erScan_nil_of_dissimilar th (entName e) i en (i :: assigned)
        (fun q hq hlt => hsim (i, e) (hsub _ (List.mem_cons_self _ _)) q hq hlt)]
      rw [List.filter_cons_of_pos (by simp [hi])]
      simp only [List.map_cons]
      rw [ih (i :: assigned) (fun q hq => hsub q (List.mem_cons_of_mem _ hq)) htail]
      have hfc : rest.filter (fun p => !decide (p.1 ∈ i :: assigned)) =
          rest.filter (fun p => !decide (p.1 ∈ assigned)) := by
        apply List.filter_congr
        intro q hq
        have hne : i ≠ q.1 := hhead q hq
        simp [List.mem_cons, hne.symm]
      rw [hfc]

theorem pairwise_fst_enumFrom (n : Nat) (l : List Item) :
    (List.enumFrom n l).Pairwise (fun p q => p.1 ≠ q.1) := by
  induction l generalizing n with
  | nil => exact List.Pairwise.nil
  | cons a t ih =>
    rw [List.enumFrom_cons]
    refine List.pairwise_cons.2 ⟨?_, ih (n + 1)⟩
    intro q hq
    have := mem_enumFrom_le q (n + 1) t hq
    omega

/-- With pairwise-dissimilar entities, clustering yields singletons. -/
theorem erClusterList_singletons (th : Rat) (ents : List Item)
    (h : ents.Pairwise (fun a b => nameSim (entName a) (entName b) < th)) :
    erClusterList th ents = ents.map (fun e => [e]) := by
  unfold erClusterList
  have he : ents.enum = List.enumFrom 0 ents := rfl
  rw [he]
  rw [erSeed_singletons_of_dissimilar th (List.enumFrom 0 ents)
    (pairwise_enumFrom ents 0 h) (List.enumFrom 0 ents) []
    (fun p hp => hp) (pairwise_fst_enumFrom 0 ents)]
  rw [List.filter_eq_self.2 (fun p _ => by simp)]
  rw [show (fun p : Nat × Item => [p.2]) = (fun e : Item => [e]) ∘ Prod.snd from rfl]
  rw [← List.map_map, List.enumFrom_map_snd]

theorem erClusterAliases_singleton (e : Item) (m : List (List Char × List Char)) :
    erClusterAliases [e] m = m := by
  unfold erClusterAliases
  simp only [List.foldl_cons, List.foldl_nil]
  rw [if_neg]
  intro h
  exact h rfl

theorem erBuildAliasMap_singletons (ents : List Item) :
    erBuildAliasMap (ents.map (fun e => [e])) = [] := by
  unfold erBuildAliasMap
  suffices h : ∀ m : List (List Char × List Char),
      (ents.map (fun e => [e])).foldl (fun m c => erClusterAliases c m) m = m from h []
  induction ents with
  | nil => intro m; rfl
  | cons a t ih =>
    intro m
    simp only [List.map_cons, List.foldl_cons]
    rw [erClusterAliases_singleton]
    exact ih m

/-- A batch whose entity items are pairwise below-threshold similar is a
fixed point of `EntityResolver.process`. -/
theorem erProcess_fixed (th : Rat) (x : List Item)
    (h : (x.filter (fun e => e.type == some strEntity)).Pairwise
        (fun a b => nameSim (entName a) (entName b) < th)) :
    erProcess th x = x := by
  unfold erProcess
  dsimp only
  by_cases hlen : (x.filter (fun e => e.type == some strEntity)).length ≤ 1
  · rw [if_pos hlen]
  · rw [if_neg hlen]
    rw [erClusterList_singletons th _ h]
    rw [erBuildAliasMap_singletons]
    have hnames : ((x.filter (fun e => e.type == some strEntity)).map
        (fun e => [e])).map (fun c => (erRep c).text) =
        (x.filter (fun e => e.type == some strEntity)).map (fun e => e.text) := by
      rw [List.map_map]
      rfl
    rw [hnames]
    have hupd : x.map (rewriteOne []) = x := by
      have h2 : ∀ e ∈ x, rewriteOne [] e = e := fun e _ => rewriteOne_nil e
      rw [List.map_congr_left h2]
      exact List.map_id' x
    rw [hupd]
    apply List.filter_eq_self.2
    intro e he
    by_cases het : (e.type == some strEntity) = true
    · simp only [het, if_true]
      have hee : e ∈ x.filter (fun e => e.type == some strEntity) :=
        List.mem_filter.2 ⟨he, het⟩
      exact List.elem_iff.mpr (List.mem_map_of_mem _ hee)
    · simp [het]

set_option maxRecDepth 40000 in
/-- C4 counterexample: on three entities `abcdefgh`, `abcdefghi`,
`abcdefghixy` at threshold `0.7`, a first resolution keeps `abcdefghi` and
`abcdefghixy` (whose containment similarity `0.9 * 9/11` clears the
threshold, while the first pass's seed `abcdefgh` was too dissimilar to
`abcdefghixy` to pull it in); a second resolution therefore merges again,
so the resolver is not idempotent on its own output. -/
theorem er_c4_not_idempotent_counterexample :
    erProcess (7 / 10) [entAB1, entAB2, entAB3] = [entAB2, entAB3] ∧
      erProcess (7 / 10) (erProcess (7 / 10) [entAB1, entAB2, entAB3]) = [entAB3] ∧
      erProcess (7 / 10) (erProcess (7 / 10) [entAB1, entAB2, entAB3]) ≠
        erProcess (7 / 10) [entAB1, entAB2, entAB3] := by
  with_unfolding_all decide

/-- C4 (amended): the Entity Resolver is idempotent on its own output
*provided* the first output's entity items are pairwise below-threshold
similar; in general a second application can merge further (see the
counterexample), because greedy single-linkage clustering can leave two
cluster representatives whose mutual similarity reaches the threshold. -/
theorem er_c4_idempotent_on_dissimilar (th : Rat) (x : List Item)
    (h : ((erProcess th x).filter (fun e => e.type == some strEntity)).Pairwise
        (fun a b => nameSim (entName a) (entName b) < th)) :
    erProcess th (erProcess th x) = erProcess th x :=
  erProcess_fixed th (erProcess th x) h

set_option maxRecDepth 40000 in
theorem er_c4_idempotent_on_dissimilar_witness :
    ((erProcess (7 / 10) [entW1, entW2]).filter
        (fun e => e.type == some strEntity)).Pairwise
      (fun a b => nameSim (entName a) (entName b) < (7 / 10 : Rat)) ∧
    erProcess (7 / 10) (erProcess (7 / 10) [entW1, entW2]) =
      erProcess (7 / 10) [entW1, entW2] :=
  ⟨by with_unfolding_all decide,
    er_c4_idempotent_on_dissimilar (7 / 10) [entW1, entW2]
      (by with_unfolding_all decide)⟩

/-- Every item the inner scan adds comes from the scanned enumeration. -/
theorem erScan_mem (th : Rat) (nameI : List Char) (i : Nat) :
    ∀ (en : List (Nat × Item)) (assigned : List Nat) (e : Item),
      e ∈ (erScan th nameI i en assigned).1 → ∃ p ∈ en, e = p.2 := by
  intro en
  induction en with
  | nil => intro assigned e h; cases h
  | cons p rest ih =>
    intro assigned e h
    obtain ⟨j, other⟩ := p
    unfold erScan at h
    by_cases h1 : j ∈ assigned ∨ j ≤ i
    · rw [if_pos h1] at h
      obtain ⟨q, hq, he⟩ := ih assigned e h
      exact ⟨q, List.mem_cons_of_mem _ hq, he⟩
    · rw [if_neg h1] at h
      by_cases h2 : th ≤ nameSim nameI (entName other)
      · rw [if_pos h2] at h
        dsimp only at h
        rcases List.mem_cons.1 h with he | he
        · exact ⟨(j, other), List.mem_cons_self _ _, he⟩
        · obtain ⟨q, hq, he2⟩ := ih _ e he
          exact ⟨q, List.mem_cons_of_mem _ hq, he2⟩
      · rw [if_neg h2] at h
        obtain ⟨q, hq, he⟩ := ih assigned e h
        exact ⟨q, List.mem_cons_of_mem _ hq, he⟩

/-- Every cluster the outer loop emits is nonempty, with members drawn from
the full enumeration or from the remaining walk. -/
theorem erSeed_cluster_mem (th : Rat) (all : List (Nat × Item)) :
    ∀ (rest : List (Nat × Item)) (assigned : List Nat) (c : List Item),
      c ∈ erSeed th all rest assigned →
      c ≠ [] ∧ ∀ e ∈ c, (∃ p ∈ all, e = p.2) ∨ (∃ p ∈ rest, e = p.2) := by
  intro rest
  induction rest with
  | nil => intro assigned c h; cases h
  | cons p rest ih =>
    intro assigned c h
    obtain ⟨i, e0⟩ := p
    unfold erSeed at h
    by_cases h1 : i ∈ assigned
    · rw [if_pos h1] at h
      obtain ⟨hne, hmem⟩ := ih _ c h
      refine ⟨hne, fun e he => ?_⟩
      rcases hmem e he with h2 | ⟨q, hq, heq⟩
      · exact Or.inl h2
      · exact Or.inr ⟨q, List.mem_cons_of_mem _ hq, heq⟩
    · rw [if_neg h1] at h
      dsimp only at h
      rcases List.mem_cons.1 h with hc | hc
      · subst hc
        refine ⟨by simp, ?_⟩
        intro e he
        rcases List.mem_cons.1 he with he | he
        · exact Or.inr ⟨(i, e0), List.mem_cons_self _ _, he⟩
        · obtain ⟨q, hq, heq⟩ := erScan_mem th (entName e0) i all _ e he
          exact Or.inl ⟨q, hq, heq⟩
      · obtain ⟨hne, hmem⟩ := ih _ c hc
        refine ⟨hne, fun e he => ?_⟩
        rcases hmem e he with h2 | ⟨q, hq, heq⟩
        · exact Or.inl h2
        · exact Or.inr ⟨q, List.mem_cons_of_mem _ hq, heq⟩

/-- Clusters of `EntityResolver._cluster` are nonempty and consist of
entities of the clustered list. -/
theorem erClusterList_mem (th : Rat) (ents : List Item) (c : List Item)
    (hc : c ∈ erClusterList th ents) : c ≠ [] ∧ ∀ e ∈ c, e ∈ ents := by
  unfold erClusterList at hc
  obtain ⟨hne, hmem⟩ := erSeed_cluster_mem th ents.enum ents.enum [] c hc
  refine ⟨hne, fun e he => ?_⟩
  rcases hmem e he with ⟨p, hp, heq⟩ | ⟨p, hp, heq⟩ <;>
    · subst heq
      exact mem_enumFrom_snd p 0 ents hp

theorem erRepAux_mem (l : List Item) : ∀ cur : Item, erRepAux cur l ∈ cur :: l := by
  induction l with
  | nil => intro cur; exact List.mem_singleton.mpr rfl
  | cons x xs ih =>
    intro cur
    unfold erRepAux
    have h := ih (if scoreLt (canonicalScore (entName cur))
      (canonicalScore (entName x)) then x else cur)
    rcases List.mem_cons.1 h with h2 | h2
    · rw [h2]
      split
      · exact List.mem_cons_of_mem _ (List.mem_cons_self _ _)
      · exact List.mem_cons_self _ _
    · exact List.mem_cons_of_mem _ (List.mem_cons_of_mem _ h2)

/-- The representative of a nonempty cluster is one of its members. -/
theorem erRep_mem (c : List Item) (h : c ≠ []) : erRep c ∈ c := by
  cases c with
  | nil => exact absurd rfl h
  | cons a t => exact erRepAux_mem t a

theorem entity_ne_relation : strEntity ≠ strRelation := by decide

/-- C2 counterexample: two distinct entity items that share the text `Foo`
fall into one cluster whose representative is the first; but the output
filter keeps entity items by *text*, so the merged-away second item — not a
representative of any cluster — survives in the output. -/
theorem er_c2_duplicate_name_counterexample :
    erClusterList (7 / 10)
        (([dupFoo1, dupFoo2] : List Item).filter
          (fun e => e.type == some strEntity)) = [[dupFoo1, dupFoo2]] ∧
      erRep [dupFoo1, dupFoo2] = dupFoo1 ∧
      dupFoo2 ≠ dupFoo1 ∧
      dupFoo2 ∈ erProcess (7 / 10) [dupFoo1, dupFoo2] := by
  with_unfolding_all decide

/-- C2 (amended): for a batch with at least two entity items whose texts are
*pairwise distinct*, the resolver's output consists of all non-entity items
with relation endpoints rewritten through the alias map, together with
exactly one entity item per cluster — its representative — and every
non-representative entity item is absent.  (With duplicate entity texts the
text-based output filter also keeps merged-away items — see the
counterexample.) -/
theorem er_c2_output_characterization (th : Rat) (x : List Item)
    (hlen : 2 ≤ (x.filter (fun e => e.type == some strEntity)).length)
    (hd : (x.filter (fun e => e.type == some strEntity)).Pairwise
        (fun a b => a.text ≠ b.text)) :
    ((erProcess th x).filter (fun e => !(e.type == some strEntity)) =
        (x.map (rewriteOne (erBuildAliasMap (erClusterList th
            (x.filter (fun e => e.type == some strEntity)))))).filter
          (fun e => !(e.type == some strEntity))) ∧
      (∀ c ∈ erClusterList th (x.filter (fun e => e.type == some strEntity)),
          erRep c ∈ erProcess th x ∧
            ((erProcess th x).filter (fun e => e == erRep c)).length = 1) ∧
      (∀ e ∈ erProcess th x, (e.type == some strEntity) = true →
          ∃ c ∈ erClusterList th (x.filter (fun e => e.type == some strEntity)),
            e = erRep c) := by
  have hlen2 : ¬(x.filter (fun e => e.type == some strEntity)).length ≤ 1 := by
    omega
  have hout : erProcess th x =
      (x.map (rewriteOne (erBuildAliasMap (erClusterList th
          (x.filter (fun e => e.type == some strEntity)))))).filter
        (fun e => if e.type == some strEntity
          then ((erClusterList th (x.filter (fun e => e.type == some strEntity))).map
            (fun c => (erRep c).text)).contains e.text
          else true) := by
    unfold erProcess
    dsimp only
    rw [if_neg hlen2]
  have hrep_ents : ∀ c ∈ erClusterList th
      (x.filter (fun e => e.type == some strEntity)),
      erRep c ∈ x.filter (fun e => e.type == some strEntity) := by
    intro c hc
    obtain ⟨hne, hmem⟩ := erClusterList_mem th _ c hc
    exact hmem _ (erRep_mem c hne)
  have htype_of_ents : ∀ e ∈ x.filter (fun e => e.type == some strEntity),
      e.type = some strEntity := by
    intro e he
    have h2 := (List.mem_filter.1 he).2
    simpa using h2
  have hrw_ent : ∀ (m : List (List Char × List Char)) (e : Item),
      e.type = some strEntity → rewriteOne m e = e := by
    intro m e he
    apply rewriteOne_of_ne_relation
    rw [he]
    intro hcon
    exact entity_ne_relation (Option.some.inj hcon)
  refine ⟨?_, ?_, ?_⟩
  · rw [hout, List.filter_filter]
    apply List.filter_congr
    intro a _
    by_cases hat : (a.type == some strEntity) = true
    · simp [hat]
    · simp [hat]
  · intro c hc
    have hre : erRep c ∈ x.filter (fun e => e.type == some strEntity) :=
      hrep_ents c hc
    have hrx : erRep c ∈ x := List.mem_of_mem_filter hre
    have hrt : (erRep c).type = some strEntity := htype_of_ents _ hre
    have hrw : rewriteOne (erBuildAliasMap (erClusterList th
        (x.filter (fun e => e.type == some strEntity)))) (erRep c) = erRep c :=
      hrw_ent _ _ hrt
    have hpred : (if (erRep c).type == some strEntity
        then ((erClusterList th (x.filter (fun e => e.type == some strEntity))).map
          (fun c => (erRep c).text)).contains (erRep c).text
        else true) = true := by
      rw [if_pos (by simp [hrt])]
      exact List.elem_iff.mpr (List.mem_map_of_mem _ hc)
    constructor
    · rw [hout]
      apply List.mem_filter.2
      refine ⟨?_, hpred⟩
      have h5 := List.mem_map_of_mem (rewriteOne (erBuildAliasMap
        (erClusterList th (x.filter (fun e => e.type == some strEntity))))) hrx
      rw [hrw] at h5
      exact h5
    · rw [hout, List.filter_filter]
      have hstep1 : (x.map (rewriteOne (erBuildAliasMap (erClusterList th
          (x.filter (fun e => e.type == some strEntity)))))).filter
            (fun a => (a == erRep c) &&
              (if a.type == some strEntity
                then ((erClusterList th (x.filter
                    (fun e => e.type == some strEntity))).map
                  (fun c => (erRep c).text)).contains a.text
                else true)) =
          (x.map (rewriteOne (erBuildAliasMap (erClusterList th
            (x.filter (fun e => e.type == some strEntity)))))).filter
            (fun a => a == erRep c) := by
        apply List.filter_congr
        intro a _
        by_cases haa : (a == erRep c) = true
        · have ha2 : a = erRep c := by simpa using haa
          subst ha2
          simp only [haa, Bool.true_and]
          exact hpred
        · simp [haa]
      rw [hstep1, List.filter_map, List.length_map]
      have hstep2 : x.filter ((fun a => a == erRep c) ∘
          rewriteOne (erBuildAliasMap (erClusterList th
            (x.filter (fun e => e.type == some strEntity))))) =
          x.filter (fun a => a == erRep c) := by
        apply List.filter_congr
        intro a _
        simp only [Function.comp]
        by_cases haa : a = erRep c
        · subst haa
          rw [hrw]
        · have h6 : rewriteOne (erBuildAliasMap (erClusterList th
              (x.filter (fun e => e.type == some strEntity)))) a ≠ erRep c := by
            intro hfe
            have h7 : a.type = some strEntity := by
              have h8 := rewriteOne_type (erBuildAliasMap (erClusterList th
                (x.filter (fun e => e.type == some strEntity)))) a
              rw [hfe] at h8
              rw [← h8, hrt]
            have h9 := hrw_ent (erBuildAliasMap (erClusterList th
              (x.filter (fun e => e.type == some strEntity)))) a h7
            rw [h9] at hfe
            exact haa hfe
          simp [haa, h6]
      rw [hstep2]
      have hstep3 : x.filter (fun a => a == erRep c) =
          x.filter (fun a => (a == erRep c) && (a.type == some strEntity)) := by
        apply List.filter_congr
        intro a _
        by_cases haa : (a == erRep c) = true
        · have ha2 : a = erRep c := by simpa using haa
          subst ha2
          simp [hrt]
        · simp [haa]
      rw [hstep3, ← List.filter_filter]
      have hnd : (x.filter (fun e => e.type == some strEntity)).Nodup :=
        hd.imp (fun hab => fun heq => hab (by rw [heq]))
      have hcount : ∀ (l : List Item), l.Nodup → erRep c ∈ l →
          (l.filter (fun a => a == erRep c)).length = 1 := by
        intro l hl hm
        have h10 : (l.filter (fun a => a == erRep c)).length =
            List.count (erRep c) l := by
          rw [List.count, List.countP_eq_length_filter]
        rw [h10]
        exact List.count_eq_one_of_mem hl hm
      exact hcount _ hnd hre
  · intro e he het
    rw [hout] at he
    obtain ⟨hem, hepred⟩ := List.mem_filter.1 he
    have hnm : e.text ∈ (erClusterList th
        (x.filter (fun e => e.type == some strEntity))).map
          (fun c => (erRep c).text) := by
      rw [if_pos het] at hepred
      exact List.elem_iff.mp hepred
    obtain ⟨c, hc, hct⟩ := List.mem_map.1 hnm
    refine ⟨c, hc, ?_⟩
    obtain ⟨a, hax, hae⟩ := List.mem_map.1 hem
    have hat : a.type = some strEntity := by
      have h8 := rewriteOne_type (erBuildAliasMap (erClusterList th
        (x.filter (fun e => e.type == some strEntity)))) a
      rw [hae] at h8
      rw [← h8]
      simpa using het
    have heq : e = a := by
      rw [← hae, hrw_ent _ _ hat]
    have hee : e ∈ x.filter (fun e => e.type == some strEntity) := by
      rw [heq]
      exact List.mem_filter.2 ⟨hax, by simp [hat]⟩
    have hrc : erRep c ∈ x.filter (fun e => e.type == some strEntity) :=
      hrep_ents c hc
    by_contra hne
    have hsymm : Symmetric (fun a b : Item => a.text ≠ b.text) :=
      fun a b hab => fun h2 => hab h2.symm
    exact (List.Pairwise.forall hsymm hd) hee hrc hne hct.symm

theorem er_c2_output_characterization_witness :
    (2 ≤ (([entW1, entW2] : List Item).filter
        (fun e => e.type == some strEntity)).length) ∧
    ((([entW1, entW2] : List Item).filter
        (fun e => e.type == some strEntity)).Pairwise
      (fun a b => a.text ≠ b.text)) ∧
    (((erProcess (7 / 10) [entW1, entW2]).filter
          (fun e => !(e.type == some strEntity)) =
        (([entW1, entW2] : List Item).map (rewriteOne (erBuildAliasMap
            (erClusterList (7 / 10) (([entW1, entW2] : List Item).filter
              (fun e => e.type == some strEntity)))))).filter
          (fun e => !(e.type == some strEntity))) ∧
      (∀ c ∈ erClusterList (7 / 10) (([entW1, entW2] : List Item).filter
          (fun e => e.type == some strEntity)),
          erRep c ∈ erProcess (7 / 10) [entW1, entW2] ∧
            ((erProcess (7 / 10) [entW1, entW2]).filter
              (fun e => e == erRep c)).length = 1) ∧
      (∀ e ∈ erProcess (7 / 10) [entW1, entW2], (e.type == some strEntity) = true →
          ∃ c ∈ erClusterList (7 / 10) (([entW1, entW2] : List Item).filter
              (fun e => e.type == some strEntity)),
            e = erRep c)) :=
  ⟨by decide, by decide,
    er_c2_output_characterization (7 / 10) [entW1, entW2] (by decide) (by decide)⟩
